import Mathlib

/-!
Verification of the `xiaozhi-esp32` image-conversion scripts
(`scripts/image-converter-statusicon/convert_to_lvgl.py` and
`scripts/image-converter-statusicon/generate_emoji.py`) against their
natural-language specification.

The Python sources are shallowly embedded below: pure pixel arithmetic
becomes Lean functions on `Nat`, the file system becomes an explicit map
from file names to optional contents, and the failing `assert` in the
encoder becomes `Except`.
-/

namespace Xiaozhi

/-- One RGBA pixel as returned by PIL's `img.getpixel((x, y))` after
`convert("RGBA")`: four 8-bit channels (red, green, blue, alpha). -/
structure Pixel where
  r : Nat
  g : Nat
  b : Nat
  a : Nat
deriving DecidableEq, Repr

/-- An image as loaded by `Image.open(path).convert("RGBA")`:
a `width × height` raster of RGBA pixels, addressed by
`getpixel x y`, which models `img.getpixel((x, y))` (origin top-left). -/
structure Img where
  width : Nat
  height : Nat
  getpixel : Nat → Nat → Pixel

/-- All four channels of every pixel are 8-bit values, as PIL guarantees
for an RGBA image. -/
def Img.Bytes8 (img : Img) : Prop :=
  ∀ x y, (img.getpixel x y).r < 256 ∧ (img.getpixel x y).g < 256 ∧
    (img.getpixel x y).b < 256 ∧ (img.getpixel x y).a < 256

/-- Line 67: `rgb565 = ((r >> 3) << 11) | ((g >> 2) << 5) | (b >> 3)`
(convert_to_lvgl.py, line 67). -/
def rgb565 (r g b : Nat) : Nat :=
  ((r >>> 3) <<< 11) ||| ((g >>> 2) <<< 5) ||| (b >>> 3)

/-- The two bytes appended per pixel by lines 68-69:
low byte `rgb565 & 0xFF`, then high byte `(rgb565 >> 8) & 0xFF`. -/
def pixelBytes (p : Pixel) : List Nat :=
  let c := rgb565 p.r p.g p.b
  [c &&& 0xFF, (c >>> 8) &&& 0xFF]

/-- The `rgb565_data` buffer built by the double loop of
`png_to_rgb565a8` (lines 63-69): for `y` in `range(32)`, for `x` in
`range(32)`, append the low byte then the high byte of the pixel's
16-bit colour. -/
def rgb565_data (img : Img) : List Nat :=
  (List.range 32).flatMap (fun y =>
    (List.range 32).flatMap (fun x => pixelBytes (img.getpixel x y)))

/-- The `alpha_data` buffer built by the same double loop
(lines 63-65, 71): one alpha byte per pixel, row-major. -/
def alpha_data (img : Img) : List Nat :=
  (List.range 32).flatMap (fun y =>
    (List.range 32).map (fun x => (img.getpixel x y).a))

/-- The encoder `png_to_rgb565a8` (convert_to_lvgl.py, lines 52-73): assert that the
image is exactly 32×32 (line 58; the raised `AssertionError` is modelled
as the `DimensionMismatch` error value named by the spec), then return
`bytes(rgb565_data + alpha_data)`. -/
def png_to_rgb565a8 (img : Img) : Except String (List Nat) :=
  if img.width = 32 ∧ img.height = 32 then
    Except.ok (rgb565_data img ++ alpha_data img)
  else
    Except.error ("DimensionMismatch")

/-! ### The textual emitter `generate_c_file` (convert_to_lvgl.py, lines 76-138) -/

/-- The `lv_image_dsc_t` initializer emitted at lines 126-135, one field
per `.header.*` / `.data_size` / `.data` line. -/
structure CHeader where
  magic : String
  cf : String
  flags : Nat
  w : Nat
  h : Nat
  stride : Nat
  data_size : Nat
  dataRef : String
deriving DecidableEq, Repr

/-- The output of `generate_c_file`. The C-preprocessor boilerplate and
hexadecimal spelling of bytes are not load-bearing; what the record keeps
is, faithfully to lines 102-135: the two emitted names, the successive
data rows of the array literal (each `dataRows` entry is the byte slice
`data[start:end]` rendered as one text row), and the metadata record. -/
structure CFile where
  var_name : String
  attr_name : String
  dataRows : List (List Nat)
  header : CHeader
deriving DecidableEq, Repr

/-- The emitter `generate_c_file(emotion_name, unicode_cp, data)`: 32 colour rows of
`data[row*64 : row*64+64]` (lines 106-112), then 32 alpha rows of
`data[2048 + row*32 : 2048 + row*32 + 32]` (lines 114-121), then the
metadata record (lines 126-135). `emotion_name` is accepted and unused,
exactly as in the source. -/
def generate_c_file (emotion_name unicode_cp : String) (data : List Nat) :
    CFile :=
  let var_name := "emoji_" ++ unicode_cp ++ "_32"
  let attr_name := "LV_ATTRIBUTE_EMOJI_" ++ unicode_cp.toUpper ++ "_32"
  let colorRows := (List.range 32).map (fun row => (data.drop (row * 64)).take 64)
  let alpha_offset := 32 * 32 * 2
  let alphaRows :=
    (List.range 32).map (fun row => (data.drop (alpha_offset + row * 32)).take 32)
  { var_name := var_name
    attr_name := attr_name
    dataRows := colorRows ++ alphaRows
    header :=
      { magic := "LV_IMAGE_HEADER_MAGIC"
        cf := "LV_COLOR_FORMAT_RGB565A8"
        flags := 0
        w := 32
        h := 32
        stride := 64
        data_size := data.length
        dataRef := var_name ++ "_map" } }

/-! ### The batch driver `main` of convert_to_lvgl.py (lines 141-176) -/

/-- Table `EMOJI_MAP` (lines 27-49): the 21 `(emotion name, unicode codepoint)`
descriptors. -/
def EMOJI_MAP : List (String × String) := [
  ("neutral",     "1f636"),
  ("happy",       "1f642"),
  ("laughing",    "1f606"),
  ("funny",       "1f602"),
  ("sad",         "1f614"),
  ("angry",       "1f620"),
  ("crying",      "1f62d"),
  ("loving",      "1f60d"),
  ("embarrassed", "1f633"),
  ("surprised",   "1f62f"),
  ("shocked",     "1f631"),
  ("thinking",    "1f914"),
  ("winking",     "1f609"),
  ("cool",        "1f60e"),
  ("relaxed",     "1f60c"),
  ("delicious",   "1f924"),
  ("kissy",       "1f618"),
  ("confident",   "1f60f"),
  ("sleepy",      "1f634"),
  ("silly",       "1f61c"),
  ("confused",    "1f644")]

/-- The observable outcome of one run of `main` (lines 148-163):
the `converted` counter, the emotion names reported missing
(`⚠ 缺失` branch, lines 151-153), and the written output files
(`out_path.write_text`, lines 160-161), in order. -/
structure ConvRun where
  converted : Nat
  missing : List String
  outFiles : List (String × CFile)
deriving DecidableEq, Repr

/-- One iteration of the `for emotion_name, unicode_cp in EMOJI_MAP`
loop. The input directory is modelled as a map `fs` from file name to
optional image; `png_path.exists()` is `(fs _).isSome`. A raised
`AssertionError` from `png_to_rgb565a8` propagates: `main` contains no
`try`/`except`. -/
def convertItem (fs : String → Option Img) (st : ConvRun)
    (item : String × String) : Except String ConvRun :=
  match fs (item.1 ++ ".png") with
  | none => Except.ok { st with missing := st.missing ++ [item.1] }
  | some img => do
      let data ← png_to_rgb565a8 img
      let cfile := generate_c_file item.1 item.2 data
      Except.ok
        { converted := st.converted + 1
          missing := st.missing
          outFiles := st.outFiles ++ [("emoji_" ++ item.2 ++ "_32.c", cfile)] }

/-- The whole loop of `main` over `EMOJI_MAP`, starting from
`converted = 0`. -/
def convertMain (fs : String → Option Img) : Except String ConvRun :=
  EMOJI_MAP.foldlM (convertItem fs) ⟨0, [], []⟩

/-- Holds iff the item's input file, when present, passes the 32×32
assertion of `png_to_rgb565a8`. -/
def validAt (fs : String → Option Img) (item : String × String) : Bool :=
  match fs (item.1 ++ ".png") with
  | some img => decide (img.width = 32 ∧ img.height = 32)
  | none => true

/-- The file `main` would write for one present item. -/
def encodeItem (fs : String → Option Img) (item : String × String) :
    Option (String × CFile) :=
  (fs (item.1 ++ ".png")).map (fun img =>
    ("emoji_" ++ item.2 ++ "_32.c",
      generate_c_file item.1 item.2 (rgb565_data img ++ alpha_data img)))

/-! ### The monochrome quantizer (generate_emoji.py, `process_to_monochrome_32`) -/

/-- The final binarization step of `process_to_monochrome_32`
(generate_emoji.py, line 183):
`img.point(lambda x: 255 if x > 180 else 0, mode="1")`.
In PIL's `"L"`/`"1"` conventions pixel value `0` renders black and `255`
renders white. -/
def pointThreshold (x : Nat) : Nat := if x > 180 then 255 else 0

/-- The 32×32 1-bit bitmap produced from the 32×32 grayscale image that
steps 1-6 of `process_to_monochrome_32` (compositing over white,
luminance conversion, the two autocontrast passes and the two LANCZOS
resamples, lines 162-180) deliver to the thresholding step: the
threshold of line 183 applied pointwise. `lum y x` is the luminance of
the pixel in row `y`, column `x`. -/
def binarize32 (lum : Fin 32 → Fin 32 → Nat) : Fin 32 → Fin 32 → Nat :=
  fun y x => pointThreshold (lum y x)

/-! ### The generation pipeline `main` of generate_emoji.py -/

/-- The 21 emotion identifiers of `EMOTIONS` (generate_emoji.py,
lines 50-72). Only the identifier component of each descriptor touches
the file system; the emoji symbol and the prompt description feed only
the text prompt sent to the external image-generation service and are
not modelled. -/
def EMOTION_NAMES : List String := [
  "neutral", "happy", "laughing", "funny", "sad", "angry", "crying",
  "loving", "embarrassed", "surprised", "shocked", "thinking", "winking",
  "cool", "relaxed", "delicious", "kissy", "confident", "sleepy",
  "silly", "confused"]

/-- The two output directories of the pipeline, as maps from emotion
name to the optional byte content of `<name>.png`:
`raw` models `output/emoji_raw/`, `final` models `output/emoji_32/`. -/
structure PipeFS where
  raw : String → Option (List Nat)
  final : String → Option (List Nat)

/-- A file write performed by the pipeline, for tracking which outputs a
run touches. -/
inductive WriteEvent where
  | rawWrite (name : String)
  | finalWrite (name : String)
deriving DecidableEq, Repr

/-- Pipeline state threaded through the two steps of `main`:
the directories plus the log of writes performed so far. -/
structure PipeState where
  fs : PipeFS
  writes : List WriteEvent

/-- Pointwise update of a directory map. -/
def updateDir (f : String → Option (List Nat)) (k : String) (v : List Nat) :
    String → Option (List Nat) :=
  fun s => if s = k then some v else f s

/-- One emotion of step 1 (generate_emoji.py, lines 218-258): if
`raw_path.exists()` the item is skipped (lines 223-225); otherwise the
external service is called (`generate_single_emoji`, modelled by
`genAPI`), and on success `raw_path.write_bytes(image_data)` stores the
result (lines 236-239); on failure the item is only reported. Console
prints and counters are not modelled. -/
def step1Item (genAPI : String → Option (List Nat)) (st : PipeState)
    (name : String) : PipeState :=
  if (st.fs.raw name).isSome then st
  else
    match genAPI name with
    | some d =>
        { fs := { raw := updateDir st.fs.raw name d, final := st.fs.final }
          writes := st.writes ++ [WriteEvent.rawWrite name] }
    | none => st

/-- One emotion of step 2 (generate_emoji.py, lines 279-293): if the raw
image is missing the item is skipped (lines 284-286); otherwise
`process_to_monochrome_32(raw_path, final_path)` is run
unconditionally — there is no check whether `final_path` already
exists — writing `process` of the raw bytes to `final_path`.
(`process` abstracts the deterministic PIL transformation chain; the
extra 4× preview copy written to `output/emoji_preview/` is not
modelled.) -/
def step2Item (process : List Nat → List Nat) (st : PipeState)
    (name : String) : PipeState :=
  match st.fs.raw name with
  | none => st
  | some d =>
      { fs := { raw := st.fs.raw, final := updateDir st.fs.final name (process d) }
        writes := st.writes ++ [WriteEvent.finalWrite name] }

/-- Function `main` of generate_emoji.py, restricted to its file-system effects:
step 1 over all emotions, then step 2 over all emotions. (Step 1 runs
its API calls on a 5-worker pool, but each task touches only its own
`<name>.png`, so the resulting directory state is order-independent and
is modelled as a left fold.) -/
def runPipeline (genAPI : String → Option (List Nat))
    (process : List Nat → List Nat) (fs₀ : PipeFS) : PipeState :=
  let s1 := EMOTION_NAMES.foldl (step1Item genAPI) ⟨fs₀, []⟩
  EMOTION_NAMES.foldl (step2Item process) s1

/-! ### Decoder, modelled from the spec -/

/-- Modelled from the spec: the repository contains no decoder, only the
encoder; spec §3/§8 define the layout to decode: "Color plane: one
16-bit little-endian value per pixel, row-major" followed by the alpha
plane. `decodeColor blob x y` reassembles the 16-bit colour of pixel
`(x, y)` from the two bytes at offset `2*(32*y+x)`, low byte first. -/
def decodeColor (blob : List Nat) (x y : Nat) : Nat :=
  blob.getD (2 * (32 * y + x)) 0 + 256 * blob.getD (2 * (32 * y + x) + 1) 0

/-- Modelled from the spec: the alpha plane is "one 8-bit value per
pixel, row-major" after the 2048-byte colour plane, so pixel `(x, y)`'s
alpha lives at offset `2048 + (32*y+x)`. -/
def decodeAlpha (blob : List Nat) (x y : Nat) : Nat :=
  blob.getD (2048 + (32 * y + x)) 0

/-! ### Concrete inputs used by witnesses and counterexamples -/

/-- A 32×32 image whose every pixel is `(200, 100, 50, 7)`. -/
def cImg : Img := ⟨32, 32, fun _ _ => ⟨200, 100, 50, 7⟩⟩

/-- A 32×32 image whose every pixel is opaque pure red `(255,0,0,255)`. -/
def redImg : Img := ⟨32, 32, fun _ _ => ⟨255, 0, 0, 255⟩⟩

/-- A 31×32 image: it fails the encoder's dimension assertion. -/
def badImg : Img := ⟨31, 32, fun _ _ => ⟨0, 0, 0, 0⟩⟩

/-- An input directory where `happy.png` has wrong dimensions and every
emotion after it is present and well-formed. -/
def fsBad : String → Option Img := fun s =>
  if s = "happy.png" then some badImg else some cImg

/-- An input directory missing exactly `sad.png` and `confused.png`,
with well-formed 32×32 images for the other 19 emotions. -/
def fsMissing2 : String → Option Img := fun s =>
  if s = "sad.png" then none
  else if s = "confused.png" then none
  else some cImg

/-- A directory in which only `neutral.png` exists. -/
def fsOnlyNeutral : String → Option Img := fun s =>
  if s = "neutral.png" then some cImg else none

/-- A 32×32 image whose every pixel is `(10, 20, 30, 40)`. -/
def imgA : Img := ⟨32, 32, fun _ _ => ⟨10, 20, 30, 40⟩⟩

/-- Same colour channels as `imgA`, different alpha. -/
def imgB : Img := ⟨32, 32, fun _ _ => ⟨10, 20, 30, 77⟩⟩

/-- Same alpha channel as `imgA`, different colour. -/
def imgC : Img := ⟨32, 32, fun _ _ => ⟨11, 20, 30, 40⟩⟩

/-- A deterministic stand-in for the PIL processing chain of
`process_to_monochrome_32`: every input maps to the bytes `[5]`. -/
def constProcess : List Nat → List Nat := fun _ => [5]

/-- Output directories left by a previous successful run for `neutral`
only: its raw image is `[1, 2, 3]` and its final bitmap is exactly
`constProcess` of the raw bytes. -/
def rawNeutralFS : PipeFS :=
  { raw := fun s => if s = "neutral" then some [1, 2, 3] else none
    final := fun s => if s = "neutral" then some [5] else none }

/-! ### Helper lemmas about the bit arithmetic -/

/-- Packing disjoint 5/6/5-bit fields with `<<<`/`|||` is plain
positional arithmetic, provided the green and blue channels are bytes. -/
theorem rgb565_eq_sum (r g b : Nat) (hg : g < 256) (hb : b < 256) :
    rgb565 r g b = (r >>> 3) * 2048 + (g >>> 2) * 32 + (b >>> 3) := by
  have hg' : g >>> 2 < 64 := by
    rw [Nat.shiftRight_eq_div_pow]; omega
  have hb' : b >>> 3 < 32 := by
    rw [Nat.shiftRight_eq_div_pow]; omega
  unfold rgb565
  rw [Nat.shiftLeft_eq, Nat.shiftLeft_eq, Nat.or_assoc]
  rw [show (g >>> 2) * 2 ^ 5 = 2 ^ 5 * (g >>> 2) by ring]
  rw [← Nat.mul_add_lt_is_or (by omega : b >>> 3 < 2 ^ 5) (g >>> 2)]
  rw [show (r >>> 3) * 2 ^ 11 = 2 ^ 11 * (r >>> 3) by ring]
  rw [← Nat.mul_add_lt_is_or
    (by omega : 2 ^ 5 * (g >>> 2) + b >>> 3 < 2 ^ 11) (r >>> 3)]
  ring

/-- The packed colour fits in 16 bits when all channels are bytes. -/
theorem rgb565_lt (r g b : Nat) (hr : r < 256) (hg : g < 256) (hb : b < 256) :
    rgb565 r g b < 65536 := by
  rw [rgb565_eq_sum r g b hg hb, Nat.shiftRight_eq_div_pow,
    Nat.shiftRight_eq_div_pow, Nat.shiftRight_eq_div_pow]
  omega

theorem and_255_eq_mod (x : Nat) : x &&& 255 = x % 256 := by
  have h := Nat.and_pow_two_sub_one_eq_mod x 8
  norm_num at h
  exact h

theorem shiftRight8_and_255 (x : Nat) (hx : x < 65536) :
    (x >>> 8) &&& 255 = x / 256 := by
  rw [and_255_eq_mod, Nat.shiftRight_eq_div_pow]
  norm_num
  omega

/-! ### Helper lemmas about flattened constant-width chunks -/

theorem flatMap_range_length {α : Type} (f : Nat → List α) (k : Nat) :
    ∀ n, (∀ i, i < n → (f i).length = k) →
      ((List.range n).flatMap f).length = n * k := by
  intro n
  induction n with
  | zero => intro _; simp
  | succ m ih =>
    intro hk
    rw [List.range_succ, List.flatMap_append, List.length_append,
      ih (fun i hi => hk i (by omega))]
    simp [hk m (by omega), Nat.succ_mul]

theorem flatMap_range_getElem {α : Type} (f : Nat → List α) (k : Nat) :
    ∀ n q r, (∀ i, i < n → (f i).length = k) → q < n → r < k →
      ((List.range n).flatMap f)[q * k + r]? = (f q)[r]? := by
  intro n
  induction n with
  | zero => intro q r _ hq _; omega
  | succ m ih =>
    intro q r hk hq hr
    rw [List.range_succ, List.flatMap_append]
    rcases Nat.lt_or_ge q m with h | h
    · rw [List.getElem?_append_left]
      · exact ih q r (fun i hi => hk i (by omega)) h hr
      · rw [flatMap_range_length f k m (fun i hi => hk i (by omega))]
        calc q * k + r < q * k + k := by omega
          _ = (q + 1) * k := by ring
          _ ≤ m * k := Nat.mul_le_mul_right k (by omega)
    · have hq' : q = m := by omega
      subst hq'
      rw [List.getElem?_append_right
        (by rw [flatMap_range_length f k q (fun i hi => hk i (by omega))]; omega)]
      rw [flatMap_range_length f k q (fun i hi => hk i (by omega))]
      simp [Nat.add_sub_cancel_left]

/-- Length of the colour plane: 2048 bytes. -/
theorem rgb565_data_length (img : Img) : (rgb565_data img).length = 2048 := by
  unfold rgb565_data
  rw [flatMap_range_length
    (fun y => (List.range 32).flatMap (fun x => pixelBytes (img.getpixel x y))) 64 32]
  intro y _
  rw [flatMap_range_length (fun x => pixelBytes (img.getpixel x y)) 2 32]
  intro x _
  rfl

/-- Length of the alpha plane: 1024 bytes. -/
theorem alpha_data_length (img : Img) : (alpha_data img).length = 1024 := by
  unfold alpha_data
  rw [flatMap_range_length
    (fun y => (List.range 32).map (fun x => (img.getpixel x y).a)) 32 32]
  intro y _
  simp

/-- Byte `j ∈ {0,1}` of the colour pair of pixel `(x, y)` inside the
colour plane. -/
theorem rgb565_data_getElem (img : Img) (x y j : Nat)
    (hx : x < 32) (hy : y < 32) (hj : j < 2) :
    (rgb565_data img)[64 * y + (2 * x + j)]? =
      (pixelBytes (img.getpixel x y))[j]? := by
  unfold rgb565_data
  rw [show 64 * y + (2 * x + j) = y * 64 + (x * 2 + j) by ring]
  rw [flatMap_range_getElem
    (fun y => (List.range 32).flatMap (fun x => pixelBytes (img.getpixel x y))) 64 32
    y (x * 2 + j)
    (fun i _ => by
      rw [flatMap_range_length (fun x => pixelBytes (img.getpixel x i)) 2 32]
      intro x' _
      rfl)
    hy (by omega)]
  rw [flatMap_range_getElem (fun x => pixelBytes (img.getpixel x y)) 2 32
    x j (fun i _ => rfl) hx hj]

/-- The alpha byte of pixel `(x, y)` inside the alpha plane. -/
theorem alpha_data_getElem (img : Img) (x y : Nat)
    (hx : x < 32) (hy : y < 32) :
    (alpha_data img)[32 * y + x]? = some (img.getpixel x y).a := by
  unfold alpha_data
  rw [show 32 * y + x = y * 32 + x by ring]
  rw [flatMap_range_getElem
    (fun y => (List.range 32).map (fun x => (img.getpixel x y).a)) 32 32
    y x (fun i _ => by simp) hy hx]
  simp [List.getElem?_range, hx]

/-- Flattening successive `k`-wide slices of a list recovers its prefix. -/
theorem flatten_chunks {α : Type} (l : List α) (k : Nat) :
    ∀ n, ((List.range n).map (fun r => (l.drop (r * k)).take k)).flatten =
      l.take (n * k) := by
  intro n
  induction n with
  | zero => simp
  | succ m ih =>
    rw [List.range_succ, List.map_append, List.flatten_append, ih]
    simp [Nat.succ_mul, List.take_add]

/-- When every present input passes the 32×32 assertion, the loop of
`main` runs to completion: it skips exactly the absent items, converts
exactly the present ones, and writes one file per present item. -/
theorem convertFold (fs : String → Option Img) :
    ∀ l : List (String × String), l.all (validAt fs) = true → ∀ st₀ : ConvRun,
      l.foldlM (convertItem fs) st₀ = Except.ok
        { converted := st₀.converted +
            l.countP (fun it => (fs (it.1 ++ ".png")).isSome)
          missing := st₀.missing ++
            (l.filter (fun it => (fs (it.1 ++ ".png")).isNone)).map Prod.fst
          outFiles := st₀.outFiles ++ l.filterMap (encodeItem fs) } := by
  intro l
  induction l with
  | nil =>
    intro _ st₀
    simp only [List.foldlM_nil, List.countP_nil, List.filter_nil,
      List.filterMap_nil, List.map_nil, List.append_nil, Nat.add_zero]
    rfl
  | cons hd tl ih =>
    intro hval st₀
    rw [List.all_cons, Bool.and_eq_true] at hval
    obtain ⟨h1, h2⟩ := hval
    rw [List.foldlM_cons]
    cases h : fs (hd.1 ++ ".png") with
    | none =>
      simp only [convertItem, h]
      show tl.foldlM (convertItem fs)
          { st₀ with missing := st₀.missing ++ [hd.1] } = _
      rw [ih h2]
      simp [List.countP_cons, List.filter_cons, List.filterMap_cons, h, encodeItem]
    | some img =>
      have hdim : img.width = 32 ∧ img.height = 32 := by
        have := h1
        simp only [validAt, h] at this
        exact of_decide_eq_true this
      simp only [convertItem, h, png_to_rgb565a8, if_pos hdim]
      show tl.foldlM (convertItem fs)
          { converted := st₀.converted + 1
            missing := st₀.missing
            outFiles := st₀.outFiles ++
              [("emoji_" ++ hd.2 ++ "_32.c",
                generate_c_file hd.1 hd.2 (rgb565_data img ++ alpha_data img))] } = _
      rw [ih h2]
      simp only [Except.ok.injEq, ConvRun.mk.injEq]
      refine ⟨?_, ?_, ?_⟩
      · simp [List.countP_cons, h]
        omega
      · simp [List.filter_cons, h]
      · simp [List.filterMap_cons, h, encodeItem]

/-- Conversely, if the loop of `main` ran to completion then every
present input image was exactly 32×32: the driver has no `try`/`except`,
so a failed assertion would have aborted the fold. -/
theorem convertFold_ok_valid (fs : String → Option Img) :
    ∀ (l : List (String × String)) (st₀ st : ConvRun),
      l.foldlM (convertItem fs) st₀ = Except.ok st →
      l.all (validAt fs) = true := by
  intro l
  induction l with
  | nil => intro _ _ _; simp
  | cons hd tl ih =>
    intro st₀ st hok
    rw [List.foldlM_cons] at hok
    rw [List.all_cons, Bool.and_eq_true]
    cases h : fs (hd.1 ++ ".png") with
    | none =>
      simp only [convertItem, h] at hok
      refine ⟨by simp [validAt, h], ih _ _ hok⟩
    | some img =>
      by_cases hdim : img.width = 32 ∧ img.height = 32
      · simp only [convertItem, h, png_to_rgb565a8, if_pos hdim] at hok
        exact ⟨by simp [validAt, h, hdim], ih _ _ hok⟩
      · simp only [convertItem, h, png_to_rgb565a8, if_neg hdim] at hok
        exact Except.noConfusion hok

/-- Step 1 never touches the final (`output/emoji_32/`) directory. -/
theorem step1_final (g : String → Option (List Nat)) :
    ∀ (l : List String) (st : PipeState),
      (l.foldl (step1Item g) st).fs.final = st.fs.final := by
  intro l
  induction l with
  | nil => intro st; rfl
  | cons n tl ih =>
    intro st
    rw [List.foldl_cons, ih]
    unfold step1Item
    split
    · rfl
    · cases g n <;> rfl

/-- Step 1 never rewrites an already-existing raw image: its entry stays
untouched and no `rawWrite` for it is logged. -/
theorem step1_preserved (g : String → Option (List Nat)) :
    ∀ (l : List String) (st : PipeState) (name : String),
      (st.fs.raw name).isSome →
      ((l.foldl (step1Item g) st).fs.raw name = st.fs.raw name) ∧
      (∀ w ∈ (l.foldl (step1Item g) st).writes,
        w ∈ st.writes ∨ w ≠ WriteEvent.rawWrite name) := by
  intro l
  induction l with
  | nil => intro st name _; exact ⟨rfl, fun w hw => Or.inl hw⟩
  | cons n tl ih =>
    intro st name hb
    rw [List.foldl_cons]
    by_cases hn : (st.fs.raw n).isSome
    · rw [show step1Item g st n = st by unfold step1Item; rw [if_pos hn]]
      exact ih st name hb
    · have hne : name ≠ n := by
        intro hEq; rw [hEq] at hb; exact hn hb
      cases hg : g n with
      | none =>
        rw [show step1Item g st n = st by
          unfold step1Item; rw [if_neg hn, hg]]
        exact ih st name hb
      | some d =>
        have hstep : step1Item g st n =
            { fs := { raw := updateDir st.fs.raw n d, final := st.fs.final }
              writes := st.writes ++ [WriteEvent.rawWrite n] } := by
          unfold step1Item; rw [if_neg hn, hg]
        rw [hstep]
        have hraw : updateDir st.fs.raw n d name = st.fs.raw name := by
          unfold updateDir; rw [if_neg hne]
        have hb' : (updateDir st.fs.raw n d name).isSome := by
          rw [hraw]; exact hb
        obtain ⟨ihr, ihw⟩ := ih
          { fs := { raw := updateDir st.fs.raw n d, final := st.fs.final }
            writes := st.writes ++ [WriteEvent.rawWrite n] } name hb'
        refine ⟨by rw [ihr]; exact hraw, fun w hw => ?_⟩
        rcases ihw w hw with hmem | hne'
        · rcases List.mem_append.mp hmem with h | h
          · exact Or.inl h
          · right
            intro hEq
            rw [hEq] at h
            simp at h
            exact hne (by rw [h])
        · exact Or.inr hne'

/-- Step 2 never touches the raw (`output/emoji_raw/`) directory. -/
theorem step2_raw (p : List Nat → List Nat) :
    ∀ (l : List String) (st : PipeState),
      (l.foldl (step2Item p) st).fs.raw = st.fs.raw := by
  intro l
  induction l with
  | nil => intro st; rfl
  | cons n tl ih =>
    intro st
    rw [List.foldl_cons, ih]
    unfold step2Item
    cases st.fs.raw n <;> rfl

/-- Step 2 only appends `finalWrite` events to the write log. -/
theorem step2_writes (p : List Nat → List Nat) :
    ∀ (l : List String) (st : PipeState),
      ∃ extra, (l.foldl (step2Item p) st).writes = st.writes ++ extra ∧
        ∀ w ∈ extra, ∃ n, w = WriteEvent.finalWrite n := by
  intro l
  induction l with
  | nil => intro st; exact ⟨[], by simp, by simp⟩
  | cons n tl ih =>
    intro st
    rw [List.foldl_cons]
    cases hr : st.fs.raw n with
    | none =>
      rw [show step2Item p st n = st by unfold step2Item; rw [hr]]
      exact ih st
    | some d =>
      have hstep : step2Item p st n =
          { fs := { raw := st.fs.raw, final := updateDir st.fs.final n (p d) }
            writes := st.writes ++ [WriteEvent.finalWrite n] } := by
        unfold step2Item; rw [hr]
      rw [hstep]
      obtain ⟨extra, hw, hall⟩ := ih
        { fs := { raw := st.fs.raw, final := updateDir st.fs.final n (p d) }
          writes := st.writes ++ [WriteEvent.finalWrite n] }
      refine ⟨[WriteEvent.finalWrite n] ++ extra, by rw [hw]; simp, ?_⟩
      intro w hwmem
      rcases List.mem_append.mp hwmem with h | h
      · simp at h; exact ⟨n, h⟩
      · exact hall w h

/-- Once an emotion's final bitmap equals `process` of its raw bytes,
the rest of step 2 keeps it exactly there (reprocessing a name rewrites
the same value). -/
theorem step2_stable (p : List Nat → List Nat) :
    ∀ (l : List String) (st : PipeState) (name : String) (d : List Nat),
      st.fs.raw name = some d → st.fs.final name = some (p d) →
      ((l.foldl (step2Item p) st).fs.final name = some (p d)) := by
  intro l
  induction l with
  | nil => intro st name d _ hf; exact hf
  | cons n tl ih =>
    intro st name d hr hf
    rw [List.foldl_cons]
    cases hrn : st.fs.raw n with
    | none =>
      rw [show step2Item p st n = st by unfold step2Item; rw [hrn]]
      exact ih st name d hr hf
    | some dn =>
      have hstep : step2Item p st n =
          { fs := { raw := st.fs.raw, final := updateDir st.fs.final n (p dn) }
            writes := st.writes ++ [WriteEvent.finalWrite n] } := by
        unfold step2Item; rw [hrn]
      rw [hstep]
      by_cases hEq : name = n
      · subst hEq
        have hd : dn = d := by rw [hr] at hrn; exact (Option.some.injEq _ _ ▸ hrn.symm)
        refine ih _ name d hr ?_
        show updateDir st.fs.final name (p dn) name = some (p d)
        unfold updateDir
        rw [if_pos rfl, hd]
      · refine ih _ name d hr ?_
        show updateDir st.fs.final n (p dn) name = some (p d)
        unfold updateDir
        rw [if_neg hEq]
        exact hf

/-- Step 2 processes every emotion in its list whose raw image is
present: it logs a `finalWrite` and leaves the final bitmap equal to
`process` of the raw bytes. -/
theorem step2_processes (p : List Nat → List Nat) :
    ∀ (l : List String) (st : PipeState) (name : String) (d : List Nat),
      st.fs.raw name = some d → name ∈ l →
      (WriteEvent.finalWrite name ∈ (l.foldl (step2Item p) st).writes) ∧
      ((l.foldl (step2Item p) st).fs.final name = some (p d)) := by
  intro l
  induction l with
  | nil => intro _ _ _ _ hmem; cases hmem
  | cons n tl ih =>
    intro st name d hr hmem
    rw [List.foldl_cons]
    by_cases hEq : name = n
    · subst hEq
      have hstep : step2Item p st name =
          { fs := { raw := st.fs.raw, final := updateDir st.fs.final name (p d) }
            writes := st.writes ++ [WriteEvent.finalWrite name] } := by
        unfold step2Item; rw [hr]
      rw [hstep]
      constructor
      · obtain ⟨extra, hw, _⟩ := step2_writes p tl
          { fs := { raw := st.fs.raw, final := updateDir st.fs.final name (p d) }
            writes := st.writes ++ [WriteEvent.finalWrite name] }
        rw [hw]
        simp
      · refine step2_stable p tl _ name d hr ?_
        show updateDir st.fs.final name (p d) name = some (p d)
        unfold updateDir
        rw [if_pos rfl]
    · have hmem' : name ∈ tl := by
        rcases List.mem_cons.mp hmem with h | h
        · exact absurd h hEq
        · exact h
      cases hrn : st.fs.raw n with
      | none =>
        rw [show step2Item p st n = st by unfold step2Item; rw [hrn]]
        exact ih st name d hr hmem'
      | some dn =>
        have hstep : step2Item p st n =
            { fs := { raw := st.fs.raw, final := updateDir st.fs.final n (p dn) }
              writes := st.writes ++ [WriteEvent.finalWrite n] } := by
          unfold step2Item; rw [hrn]
        rw [hstep]
        exact ih _ name d hr hmem'

/-- The three bytes of pixel `(x, y)` inside the encoder's blob:
low colour byte, high colour byte, and alpha byte. -/
theorem blob_getElems (img : Img) (x y : Nat) (hx : x < 32) (hy : y < 32) :
    (rgb565_data img ++ alpha_data img)[2 * (32 * y + x)]? =
      some (rgb565 (img.getpixel x y).r (img.getpixel x y).g
        (img.getpixel x y).b &&& 0xFF) ∧
    (rgb565_data img ++ alpha_data img)[2 * (32 * y + x) + 1]? =
      some ((rgb565 (img.getpixel x y).r (img.getpixel x y).g
        (img.getpixel x y).b >>> 8) &&& 0xFF) ∧
    (rgb565_data img ++ alpha_data img)[2048 + (32 * y + x)]? =
      some (img.getpixel x y).a := by
  refine ⟨?_, ?_, ?_⟩
  · rw [List.getElem?_append_left (by rw [rgb565_data_length]; omega)]
    rw [show 2 * (32 * y + x) = 64 * y + (2 * x + 0) by ring]
    rw [rgb565_data_getElem img x y 0 hx hy (by omega)]
    rfl
  · rw [List.getElem?_append_left (by rw [rgb565_data_length]; omega)]
    rw [show 2 * (32 * y + x) + 1 = 64 * y + (2 * x + 1) by ring]
    rw [rgb565_data_getElem img x y 1 hx hy (by omega)]
    rfl
  · rw [List.getElem?_append_right (by rw [rgb565_data_length]; omega)]
    rw [rgb565_data_length]
    rw [show 2048 + (32 * y + x) - 2048 = 32 * y + x by omega]
    exact alpha_data_getElem img x y hx hy

/-! ### Claims -/

/-- C1 counterexample: a luminance plane uniformly at 200 — strictly
brighter than the 180 cutoff everywhere — binarizes to 255 at every
pixel, i.e. to PIL's white, not to black as the claim states: `lambda x:
255 if x > 180 else 0` maps bright pixels to 255 (white) and dark ones
to 0 (black), the opposite orientation of the claim. -/
theorem C1_counterexample :
    binarize32 (fun _ _ => 200) = (fun _ _ => 255) ∧
    binarize32 (fun _ _ => 200) 0 0 ≠ 0 := by
  constructor
  · funext y x
    rfl
  · decide

/-- C1 (amended): a pixel of the quantizer's 32×32 output is white (255)
iff the corresponding luminance after the compositing/contrast/
resampling steps is strictly greater than the 180 cutoff, and black (0)
otherwise; in particular an input uniformly brighter than 180 yields an
all-white bitmap, and one uniformly at or below 180 an all-black one. -/
theorem C1_threshold_amended (lum : Fin 32 → Fin 32 → Nat) :
    (∀ y x, binarize32 lum y x = 255 ↔ 180 < lum y x) ∧
    (∀ y x, binarize32 lum y x = 0 ↔ lum y x ≤ 180) ∧
    ((∀ y x, 180 < lum y x) → binarize32 lum = fun _ _ => 255) ∧
    ((∀ y x, lum y x ≤ 180) → binarize32 lum = fun _ _ => 0) := by
  refine ⟨fun y x => ?_, fun y x => ?_, fun h => ?_, fun h => ?_⟩
  · unfold binarize32 pointThreshold
    split <;> omega
  · unfold binarize32 pointThreshold
    split <;> omega
  · funext y x
    unfold binarize32 pointThreshold
    rw [if_pos (h y x)]
  · funext y x
    unfold binarize32 pointThreshold
    rw [if_neg (by have := h y x; omega)]

/-- C1 witness: the amended theorem applied to the uniform luminance
planes 200 (bright) and 100 (dark). -/
theorem C1_threshold_witness :
    binarize32 (fun _ _ => 200) = (fun _ _ => 255) ∧
    binarize32 (fun _ _ => 100) = (fun _ _ => 0) :=
  ⟨(C1_threshold_amended (fun _ _ => 200)).2.2.1 (fun _ _ => by decide),
   (C1_threshold_amended (fun _ _ => 100)).2.2.2 (fun _ _ => by decide)⟩

/-- C3: for every pixel with 8-bit channels the encoder's 16-bit colour
value `rgb565 = ((R>>3)<<11) | ((G>>2)<<5) | (B>>3)` is the non-rounding
truncation of the channels: it equals `(R/8)·2^11 + (G/4)·2^5 + B/8`,
fits in 16 bits, and its bit-fields 11-15, 5-10 and 0-4 hold exactly
`R/8`, `G/4` and `B/8`. -/
theorem C3_color16_truncation (r g b : Nat)
    (hr : r < 256) (hg : g < 256) (hb : b < 256) :
    rgb565 r g b = r / 8 * 2 ^ 11 + g / 4 * 2 ^ 5 + b / 8 ∧
    rgb565 r g b < 2 ^ 16 ∧
    rgb565 r g b / 2 ^ 11 % 2 ^ 5 = r / 8 ∧
    rgb565 r g b / 2 ^ 5 % 2 ^ 6 = g / 4 ∧
    rgb565 r g b % 2 ^ 5 = b / 8 := by
  have hsum := rgb565_eq_sum r g b hg hb
  rw [Nat.shiftRight_eq_div_pow, Nat.shiftRight_eq_div_pow,
    Nat.shiftRight_eq_div_pow] at hsum
  norm_num at hsum
  rw [hsum]
  norm_num
  omega

/-- C3 witness: the theorem evaluated at the concrete pixel
`(200, 100, 50)`. -/
theorem C3_color16_witness :
    rgb565 200 100 50 = 200 / 8 * 2 ^ 11 + 100 / 4 * 2 ^ 5 + 50 / 8 ∧
    rgb565 200 100 50 < 2 ^ 16 ∧
    rgb565 200 100 50 / 2 ^ 11 % 2 ^ 5 = 200 / 8 ∧
    rgb565 200 100 50 / 2 ^ 5 % 2 ^ 6 = 100 / 4 ∧
    rgb565 200 100 50 % 2 ^ 5 = 50 / 8 :=
  C3_color16_truncation 200 100 50 (by decide) (by decide) (by decide)

/-- C5: for every 32×32 input, the encoder's blob is the complete colour
plane followed by the complete alpha plane, 3072 bytes in all; pixel
`(x,y)`'s two colour bytes sit at offsets `2·(32·y+x)` and
`2·(32·y+x)+1` and its alpha byte at `2048 + (32·y+x)` — planar,
never interleaved. -/
theorem C5_planar_layout (img : Img)
    (h32 : img.width = 32 ∧ img.height = 32) :
    png_to_rgb565a8 img = Except.ok (rgb565_data img ++ alpha_data img) ∧
    (rgb565_data img).length = 2048 ∧
    (alpha_data img).length = 1024 ∧
    (rgb565_data img ++ alpha_data img).length = 3072 ∧
    (∀ x y, x < 32 → y < 32 →
      (rgb565_data img ++ alpha_data img)[2 * (32 * y + x)]? =
        some (rgb565 (img.getpixel x y).r (img.getpixel x y).g
          (img.getpixel x y).b &&& 0xFF) ∧
      (rgb565_data img ++ alpha_data img)[2 * (32 * y + x) + 1]? =
        some ((rgb565 (img.getpixel x y).r (img.getpixel x y).g
          (img.getpixel x y).b >>> 8) &&& 0xFF) ∧
      (rgb565_data img ++ alpha_data img)[2048 + (32 * y + x)]? =
        some (img.getpixel x y).a) :=
  ⟨by unfold png_to_rgb565a8; rw [if_pos h32],
   rgb565_data_length img,
   alpha_data_length img,
   by simp [List.length_append, rgb565_data_length, alpha_data_length],
   fun x y hx hy => blob_getElems img x y hx hy⟩

/-- C5 witness: the layout theorem at the concrete image `cImg`,
inspected at pixel `(3, 5)`. -/
theorem C5_planar_witness :
    png_to_rgb565a8 cImg = Except.ok (rgb565_data cImg ++ alpha_data cImg) ∧
    (rgb565_data cImg ++ alpha_data cImg).length = 3072 ∧
    (rgb565_data cImg ++ alpha_data cImg)[2 * (32 * 5 + 3)]? =
      some (rgb565 (cImg.getpixel 3 5).r (cImg.getpixel 3 5).g
        (cImg.getpixel 3 5).b &&& 0xFF) ∧
    (rgb565_data cImg ++ alpha_data cImg)[2048 + (32 * 5 + 3)]? =
      some (cImg.getpixel 3 5).a := by
  obtain ⟨henc, _, _, hlen, hpx⟩ := C5_planar_layout cImg ⟨rfl, rfl⟩
  obtain ⟨hlo, _, ha⟩ := hpx 3 5 (by decide) (by decide)
  exact ⟨henc, hlen, hlo, ha⟩

/-- Chunks of `rgb565_data` agree whenever the two images agree on the
colour channels of every pixel the encoder reads. -/
theorem rgb565_data_congr (img1 img2 : Img)
    (h : ∀ x y, x < 32 → y < 32 →
      (img1.getpixel x y).r = (img2.getpixel x y).r ∧
      (img1.getpixel x y).g = (img2.getpixel x y).g ∧
      (img1.getpixel x y).b = (img2.getpixel x y).b) :
    rgb565_data img1 = rgb565_data img2 := by
  unfold rgb565_data
  simp only [List.flatMap]
  apply congrArg
  apply List.map_congr_left
  intro y hy
  apply congrArg
  apply List.map_congr_left
  intro x hx
  have hx' := List.mem_range.mp hx
  have hy' := List.mem_range.mp hy
  obtain ⟨hr, hg, hb⟩ := h x y hx' hy'
  unfold pixelBytes
  rw [hr, hg, hb]

/-- The alpha planes agree whenever the two images agree on the alpha
channel of every pixel the encoder reads. -/
theorem alpha_data_congr (img1 img2 : Img)
    (h : ∀ x y, x < 32 → y < 32 →
      (img1.getpixel x y).a = (img2.getpixel x y).a) :
    alpha_data img1 = alpha_data img2 := by
  unfold alpha_data
  simp only [List.flatMap]
  apply congrArg
  apply List.map_congr_left
  intro y hy
  apply List.map_congr_left
  intro x hx
  exact h x y (List.mem_range.mp hx) (List.mem_range.mp hy)

/-- C10: the colour plane (first 2048 blob bytes) depends only on the
RGB channels — alpha, including full transparency, never leaks into
it — and the alpha plane (last 1024 bytes) depends only on alpha. -/
theorem C10_plane_independence (img1 img2 : Img)
    (h1 : img1.width = 32 ∧ img1.height = 32)
    (h2 : img2.width = 32 ∧ img2.height = 32)
    (blob1 blob2 : List Nat)
    (henc1 : png_to_rgb565a8 img1 = Except.ok blob1)
    (henc2 : png_to_rgb565a8 img2 = Except.ok blob2) :
    ((∀ x y, x < 32 → y < 32 →
        (img1.getpixel x y).r = (img2.getpixel x y).r ∧
        (img1.getpixel x y).g = (img2.getpixel x y).g ∧
        (img1.getpixel x y).b = (img2.getpixel x y).b) →
      blob1.take 2048 = blob2.take 2048) ∧
    ((∀ x y, x < 32 → y < 32 →
        (img1.getpixel x y).a = (img2.getpixel x y).a) →
      blob1.drop 2048 = blob2.drop 2048) := by
  unfold png_to_rgb565a8 at henc1 henc2
  rw [if_pos h1] at henc1
  rw [if_pos h2] at henc2
  have hb1 : blob1 = rgb565_data img1 ++ alpha_data img1 :=
    (Except.ok.injEq _ _ ▸ henc1).symm
  have hb2 : blob2 = rgb565_data img2 ++ alpha_data img2 :=
    (Except.ok.injEq _ _ ▸ henc2).symm
  subst hb1
  subst hb2
  constructor
  · intro h
    rw [show (2048 : Nat) = (rgb565_data img1).length from (rgb565_data_length img1).symm]
    rw [List.take_left]
    rw [show (rgb565_data img1).length = (rgb565_data img2).length by
      rw [rgb565_data_length, rgb565_data_length]]
    rw [List.take_left]
    exact rgb565_data_congr img1 img2 h
  · intro h
    rw [show (2048 : Nat) = (rgb565_data img1).length from (rgb565_data_length img1).symm]
    rw [List.drop_left]
    rw [show (rgb565_data img1).length = (rgb565_data img2).length by
      rw [rgb565_data_length, rgb565_data_length]]
    rw [List.drop_left]
    exact alpha_data_congr img1 img2 h

/-- C10 witness: `imgA`/`imgB` differ only in alpha and get the same
colour plane; `imgA`/`imgC` differ only in colour and get the same
alpha plane. -/
theorem C10_plane_witness :
    (rgb565_data imgA ++ alpha_data imgA).take 2048 =
      (rgb565_data imgB ++ alpha_data imgB).take 2048 ∧
    (rgb565_data imgA ++ alpha_data imgA).drop 2048 =
      (rgb565_data imgC ++ alpha_data imgC).drop 2048 :=
  ⟨(C10_plane_independence imgA imgB ⟨rfl, rfl⟩ ⟨rfl, rfl⟩ _ _ rfl rfl).1
      (fun _ _ _ _ => ⟨rfl, rfl, rfl⟩),
   (C10_plane_independence imgA imgC ⟨rfl, rfl⟩ ⟨rfl, rfl⟩ _ _ rfl rfl).2
      (fun _ _ _ _ => rfl)⟩

/-- C4: decoding the encoder's blob per the documented RGB565A8 layout
recovers every pixel's alpha exactly and a colour equal, bit for bit, to
the 5/6/5 truncation `rgb565` applied directly to the original channels
(the decoder is modelled from the spec, the encoder from the source). -/
theorem C4_decode_roundtrip (img : Img)
    (h32 : img.width = 32 ∧ img.height = 32) (h8 : img.Bytes8)
    (x y : Nat) (hx : x < 32) (hy : y < 32) :
    png_to_rgb565a8 img = Except.ok (rgb565_data img ++ alpha_data img) ∧
    decodeAlpha (rgb565_data img ++ alpha_data img) x y =
      (img.getpixel x y).a ∧
    decodeColor (rgb565_data img ++ alpha_data img) x y =
      rgb565 (img.getpixel x y).r (img.getpixel x y).g
        (img.getpixel x y).b := by
  obtain ⟨hlo, hhi, ha⟩ := blob_getElems img x y hx hy
  obtain ⟨hr, hg, hb, _⟩ := h8 x y
  have hlt := rgb565_lt (img.getpixel x y).r (img.getpixel x y).g
    (img.getpixel x y).b hr hg hb
  refine ⟨by unfold png_to_rgb565a8; rw [if_pos h32], ?_, ?_⟩
  · unfold decodeAlpha
    rw [List.getD_eq_getElem?_getD, ha]
    rfl
  · unfold decodeColor
    rw [List.getD_eq_getElem?_getD, List.getD_eq_getElem?_getD, hlo, hhi]
    simp only [Option.getD_some]
    rw [and_255_eq_mod, shiftRight8_and_255 _ hlt]
    rw [Nat.mod_add_div]

/-- The constant test image has 8-bit channels. -/
theorem cImg_Bytes8 : cImg.Bytes8 := by
  intro x y
  refine ⟨?_, ?_, ?_, ?_⟩ <;> norm_num [cImg]

/-- C4 witness: the round-trip theorem at the concrete image `cImg`,
pixel `(4, 9)`. -/
theorem C4_decode_witness :
    decodeAlpha (rgb565_data cImg ++ alpha_data cImg) 4 9 =
      (cImg.getpixel 4 9).a ∧
    decodeColor (rgb565_data cImg ++ alpha_data cImg) 4 9 =
      rgb565 (cImg.getpixel 4 9).r (cImg.getpixel 4 9).g
        (cImg.getpixel 4 9).b := by
  obtain ⟨_, ha, hc⟩ := C4_decode_roundtrip cImg ⟨rfl, rfl⟩ cImg_Bytes8
    4 9 (by decide) (by decide)
  exact ⟨ha, hc⟩

/-- A constant-chunk `flatMap` over `range` is a replicated flatten. -/
theorem flatMap_range_const {α : Type} (n : Nat) (L : List α) :
    (List.range n).flatMap (fun _ => L) = (List.replicate n L).flatten := by
  induction n with
  | zero => simp
  | succ m ih =>
    rw [List.range_succ, List.flatMap_append, ih, List.replicate_succ' m L,
      List.flatten_append]
    simp

/-- Flattening `m` copies of an already-flattened `n`-fold replication
is an `m*n`-fold replication. -/
theorem flatten_replicate_flatten {α : Type} (m n : Nat) (L : List α) :
    (List.replicate m ((List.replicate n L).flatten)).flatten =
      (List.replicate (m * n) L).flatten := by
  induction m with
  | zero => simp
  | succ k ih =>
    rw [List.replicate_succ' k, List.flatten_append, ih, Nat.succ_mul,
      List.replicate_add, List.flatten_append]
    simp

/-- The colour plane of the all-red image: 1024 little-endian copies of
`0xF800`. -/
theorem rgb565_data_red :
    rgb565_data redImg = (List.replicate 1024 [0x00, 0xF8]).flatten := by
  unfold rgb565_data
  have hpix : ∀ x y : Nat, pixelBytes (redImg.getpixel x y) = [0x00, 0xF8] := by
    intro x y
    show pixelBytes ⟨255, 0, 0, 255⟩ = [0x00, 0xF8]
    decide
  have hinner : ∀ y : Nat,
      (List.range 32).flatMap (fun x => pixelBytes (redImg.getpixel x y)) =
        (List.replicate 32 [0x00, 0xF8]).flatten := by
    intro y
    rw [show (fun x => pixelBytes (redImg.getpixel x y)) =
        (fun _ : Nat => ([0x00, 0xF8] : List Nat)) from funext fun x => hpix x y]
    exact flatMap_range_const 32 [0x00, 0xF8]
  simp only [hinner]
  rw [flatMap_range_const, flatten_replicate_flatten]

/-- The alpha plane of the all-red image: 1024 bytes `0xFF`. -/
theorem alpha_data_red :
    alpha_data redImg = List.replicate 1024 0xFF := by
  unfold alpha_data
  have hinner : ∀ y : Nat,
      (List.range 32).map (fun x => (redImg.getpixel x y).a) =
        List.replicate 32 255 := by
    intro y
    rw [show (fun x => (redImg.getpixel x y).a) = (fun _ : Nat => (255 : Nat))
      from funext fun x => rfl]
    rw [List.map_const']
    simp
  simp only [hinner]
  rw [flatMap_range_const, List.flatten_replicate_replicate]

/-- C6: each 16-bit colour value enters the colour plane low byte first:
the byte at offset `2·(32·y+x)` is `rgb565 % 256` and the one after it
`rgb565 / 256`; moreover an all-opaque-red 32×32 image encodes to 1024
colour pairs `0x00, 0xF8` followed by 1024 alpha bytes `0xFF`. -/
theorem C6_little_endian (img : Img)
    (h32 : img.width = 32 ∧ img.height = 32) (h8 : img.Bytes8)
    (x y : Nat) (hx : x < 32) (hy : y < 32) :
    ((rgb565_data img ++ alpha_data img)[2 * (32 * y + x)]? =
      some (rgb565 (img.getpixel x y).r (img.getpixel x y).g
        (img.getpixel x y).b % 256)) ∧
    ((rgb565_data img ++ alpha_data img)[2 * (32 * y + x) + 1]? =
      some (rgb565 (img.getpixel x y).r (img.getpixel x y).g
        (img.getpixel x y).b / 256)) ∧
    png_to_rgb565a8 redImg =
      Except.ok ((List.replicate 1024 [0x00, 0xF8]).flatten ++
        List.replicate 1024 0xFF) := by
  obtain ⟨hlo, hhi, _⟩ := blob_getElems img x y hx hy
  obtain ⟨hr, hg, hb, _⟩ := h8 x y
  have hlt := rgb565_lt (img.getpixel x y).r (img.getpixel x y).g
    (img.getpixel x y).b hr hg hb
  refine ⟨?_, ?_, ?_⟩
  · rw [hlo, and_255_eq_mod]
  · rw [hhi, shiftRight8_and_255 _ hlt]
  · unfold png_to_rgb565a8
    rw [if_pos ⟨rfl, rfl⟩, rgb565_data_red, alpha_data_red]

/-- C6 witness: the little-endian theorem at `cImg`, pixel `(0, 0)`,
together with the all-red example. -/
theorem C6_little_endian_witness :
    ((rgb565_data cImg ++ alpha_data cImg)[2 * (32 * 0 + 0)]? =
      some (rgb565 (cImg.getpixel 0 0).r (cImg.getpixel 0 0).g
        (cImg.getpixel 0 0).b % 256)) ∧
    ((rgb565_data cImg ++ alpha_data cImg)[2 * (32 * 0 + 0) + 1]? =
      some (rgb565 (cImg.getpixel 0 0).r (cImg.getpixel 0 0).g
        (cImg.getpixel 0 0).b / 256)) ∧
    png_to_rgb565a8 redImg =
      Except.ok ((List.replicate 1024 [0x00, 0xF8]).flatten ++
        List.replicate 1024 0xFF) :=
  C6_little_endian cImg ⟨rfl, rfl⟩ cImg_Bytes8 0 0 (by decide) (by decide)

/-- C2 counterexample: with `happy.png` present at 31×32 and every other
input present and well-formed, the batch run does not continue past the
bad item: `main` has no `try`/`except`, so the whole run aborts with the
dimension error instead of reporting the item and carrying on. -/
theorem C2_counterexample :
    convertMain fsBad = Except.error ("DimensionMismatch") := rfl

/-- C2 (amended): a dimension mismatch on encode is fatal for the whole
batch, not just the item: if any present input is not exactly 32×32 the
run aborts with an error, and a run that returns a result implies every
present input was 32×32; only missing files are reported and skipped. -/
theorem C2_abort_amended (fs : String → Option Img) :
    (EMOJI_MAP.all (validAt fs) = false →
      ∃ e, convertMain fs = Except.error e) ∧
    (∀ st, convertMain fs = Except.ok st →
      EMOJI_MAP.all (validAt fs) = true) := by
  constructor
  · intro hfalse
    cases hres : convertMain fs with
    | error e => exact ⟨e, rfl⟩
    | ok st =>
      unfold convertMain at hres
      rw [convertFold_ok_valid fs EMOJI_MAP _ _ hres] at hfalse
      exact Bool.noConfusion hfalse
  · intro st hok
    unfold convertMain at hok
    exact convertFold_ok_valid fs EMOJI_MAP _ _ hok

/-- C2 witness: the amended theorem applied to the directory with the
31×32 `happy.png`. -/
theorem C2_abort_witness :
    ∃ e, convertMain fsBad = Except.error e :=
  (C2_abort_amended fsBad).1 (by decide)

/-- A `filterMap` yields one output per input on which the function
succeeds. -/
theorem length_filterMap_countP {α β : Type} (f : α → Option β) :
    ∀ l : List α,
      (l.filterMap f).length = l.countP (fun a => (f a).isSome) := by
  intro l
  induction l with
  | nil => simp
  | cons hd tl ih =>
    cases h : f hd with
    | none => simp [List.filterMap_cons, List.countP_cons, h, ih]
    | some b => simp [List.filterMap_cons, List.countP_cons, h, ih]

/-- C7: when every present input is well-formed, the driver completes,
reporting exactly the absent emotion names as missing, converting
exactly the present inputs, and writing one `emoji_<codepoint>_32.c`
file per present input. -/
theorem C7_missing_skipped (fs : String → Option Img)
    (hval : EMOJI_MAP.all (validAt fs) = true) :
    convertMain fs = Except.ok
      { converted := EMOJI_MAP.countP (fun it => (fs (it.1 ++ ".png")).isSome)
        missing :=
          (EMOJI_MAP.filter (fun it => (fs (it.1 ++ ".png")).isNone)).map Prod.fst
        outFiles := EMOJI_MAP.filterMap (encodeItem fs) } ∧
    (EMOJI_MAP.filterMap (encodeItem fs)).length =
      EMOJI_MAP.countP (fun it => (fs (it.1 ++ ".png")).isSome) := by
  constructor
  · unfold convertMain
    rw [convertFold fs EMOJI_MAP hval ⟨0, [], []⟩]
    simp
  · rw [length_filterMap_countP (encodeItem fs) EMOJI_MAP]
    apply List.countP_congr
    intro it _
    unfold encodeItem
    cases fs (it.1 ++ ".png") <;> simp

/-- C7 witness: with exactly `sad.png` and `confused.png` missing, the
driver reports exactly those two names and produces 19 output files. -/
theorem C7_missing_witness :
    convertMain fsMissing2 = Except.ok
      { converted :=
          EMOJI_MAP.countP (fun it => (fsMissing2 (it.1 ++ ".png")).isSome)
        missing :=
          (EMOJI_MAP.filter
            (fun it => (fsMissing2 (it.1 ++ ".png")).isNone)).map Prod.fst
        outFiles := EMOJI_MAP.filterMap (encodeItem fsMissing2) } ∧
    (EMOJI_MAP.filter
      (fun it => (fsMissing2 (it.1 ++ ".png")).isNone)).map Prod.fst =
      ["sad", "confused"] ∧
    EMOJI_MAP.countP (fun it => (fsMissing2 (it.1 ++ ".png")).isSome) = 19 ∧
    (EMOJI_MAP.filterMap (encodeItem fsMissing2)).length = 19 := by
  obtain ⟨hrun, hlen⟩ := C7_missing_skipped fsMissing2 (by decide)
  refine ⟨hrun, by decide, by decide, ?_⟩
  rw [hlen]
  decide

/-- C8: on a 3072-byte blob the emitter produces exactly 32 colour rows
of 64 bytes each, which concatenate to the blob's first 2048 bytes in
order, followed by exactly 32 alpha rows of 32 bytes each, which
concatenate to the remaining 1024 bytes in order; the metadata record
carries the fixed format tag, width 32, height 32, stride 64, the blob's
byte length, and the array's name. -/
theorem C8_emitter_layout (emotion_name unicode_cp : String)
    (data : List Nat) (hlen : data.length = 3072) :
    ((generate_c_file emotion_name unicode_cp data).dataRows.take 32).length = 32 ∧
    (∀ row ∈ (generate_c_file emotion_name unicode_cp data).dataRows.take 32,
      row.length = 64) ∧
    ((generate_c_file emotion_name unicode_cp data).dataRows.take 32).flatten =
      data.take 2048 ∧
    ((generate_c_file emotion_name unicode_cp data).dataRows.drop 32).length = 32 ∧
    (∀ row ∈ (generate_c_file emotion_name unicode_cp data).dataRows.drop 32,
      row.length = 32) ∧
    ((generate_c_file emotion_name unicode_cp data).dataRows.drop 32).flatten =
      data.drop 2048 ∧
    (generate_c_file emotion_name unicode_cp data).header =
      { magic := "LV_IMAGE_HEADER_MAGIC"
        cf := "LV_COLOR_FORMAT_RGB565A8"
        flags := 0
        w := 32
        h := 32
        stride := 64
        data_size := data.length
        dataRef := "emoji_" ++ unicode_cp ++ "_32" ++ "_map" } ∧
    (generate_c_file emotion_name unicode_cp data).var_name =
      "emoji_" ++ unicode_cp ++ "_32" := by
  have hcolor : ((List.range 32).map
      (fun row => (data.drop (row * 64)).take 64)).length = 32 := by simp
  have htake : (generate_c_file emotion_name unicode_cp data).dataRows.take 32 =
      (List.range 32).map (fun row => (data.drop (row * 64)).take 64) := by
    unfold generate_c_file
    rw [show (32 : Nat) = ((List.range 32).map
      (fun row => (data.drop (row * 64)).take 64)).length from hcolor.symm]
    exact List.take_left _ _
  have hdrop : (generate_c_file emotion_name unicode_cp data).dataRows.drop 32 =
      (List.range 32).map
        (fun row => (data.drop (32 * 32 * 2 + row * 32)).take 32) := by
    unfold generate_c_file
    rw [show (32 : Nat) = ((List.range 32).map
      (fun row => (data.drop (row * 64)).take 64)).length from hcolor.symm]
    exact List.drop_left _ _
  refine ⟨by rw [htake]; simp, ?_, ?_, by rw [hdrop]; simp, ?_, ?_, rfl, rfl⟩
  · rw [htake]
    intro row hrow
    obtain ⟨r, hr, hEq⟩ := List.mem_map.mp hrow
    have hr' := List.mem_range.mp hr
    rw [← hEq, List.length_take, List.length_drop, hlen]
    omega
  · rw [htake, flatten_chunks data 64 32]
  · rw [hdrop]
    intro row hrow
    obtain ⟨r, hr, hEq⟩ := List.mem_map.mp hrow
    have hr' := List.mem_range.mp hr
    rw [← hEq, List.length_take, List.length_drop, hlen]
    omega
  · rw [hdrop]
    have hshift : ∀ r : Nat, data.drop (32 * 32 * 2 + r * 32) =
        (data.drop 2048).drop (r * 32) := by
      intro r
      rw [List.drop_drop]
    simp only [hshift]
    rw [flatten_chunks (data.drop 2048) 32 32]
    apply List.take_of_length_le
    rw [List.length_drop, hlen]

/-- C8 witness: the emitter layout theorem on a concrete 3072-byte
blob. -/
theorem C8_emitter_witness :
    ((generate_c_file ("happy") "1f642" (List.replicate 3072 7)).dataRows.take 32).length = 32 ∧
    (∀ row ∈ (generate_c_file ("happy") "1f642" (List.replicate 3072 7)).dataRows.take 32,
      row.length = 64) ∧
    ((generate_c_file ("happy") "1f642" (List.replicate 3072 7)).dataRows.take 32).flatten =
      (List.replicate 3072 7).take 2048 ∧
    ((generate_c_file ("happy") "1f642" (List.replicate 3072 7)).dataRows.drop 32).length = 32 ∧
    (∀ row ∈ (generate_c_file ("happy") "1f642" (List.replicate 3072 7)).dataRows.drop 32,
      row.length = 32) ∧
    ((generate_c_file ("happy") "1f642" (List.replicate 3072 7)).dataRows.drop 32).flatten =
      (List.replicate 3072 7).drop 2048 ∧
    (generate_c_file ("happy") "1f642" (List.replicate 3072 7)).header =
      { magic := "LV_IMAGE_HEADER_MAGIC"
        cf := "LV_COLOR_FORMAT_RGB565A8"
        flags := 0
        w := 32
        h := 32
        stride := 64
        data_size := (List.replicate 3072 7).length
        dataRef := "emoji_" ++ "1f642" ++ "_32" ++ "_map" } ∧
    (generate_c_file ("happy") "1f642" (List.replicate 3072 7)).var_name =
      "emoji_" ++ "1f642" ++ "_32" :=
  C8_emitter_layout ("happy") "1f642" (List.replicate 3072 7)
    (List.length_replicate 3072 7)

set_option maxRecDepth 8192 in
/-- C9 counterexample: with `neutral`'s raw image and final bitmap both
present from a previous successful run (the final bitmap equals
`process` of the raw bytes), re-running the pipeline still reprocesses
the item: the run's write log records a `finalWrite` for `neutral`, so
the previously produced final bitmap is rewritten rather than
skipped — step 2 checks only the raw image, never the output file. -/
theorem C9_counterexample :
    WriteEvent.finalWrite ("neutral") ∈
      (runPipeline (fun _ => none) constProcess rawNeutralFS).writes := by
  decide

/-- C9 (amended): re-running the pipeline skips only the generation
step — an existing raw image is neither regenerated nor rewritten — but
step 2 reprocesses every emotion whose raw image exists, rewriting its
final bitmap with `process` of the raw bytes; the rewritten content is
byte-identical to the previous run's output whenever that output came
from the same raw bytes and processing chain. -/
theorem C9_resume_amended (genAPI : String → Option (List Nat))
    (process : List Nat → List Nat) (fs₀ : PipeFS) (name : String) :
    ((fs₀.raw name).isSome = true →
      (runPipeline genAPI process fs₀).fs.raw name = fs₀.raw name ∧
      WriteEvent.rawWrite name ∉ (runPipeline genAPI process fs₀).writes) ∧
    (name ∈ EMOTION_NAMES → ∀ d, fs₀.raw name = some d →
      WriteEvent.finalWrite name ∈ (runPipeline genAPI process fs₀).writes ∧
      (runPipeline genAPI process fs₀).fs.final name = some (process d) ∧
      (fs₀.final name = some (process d) →
        (runPipeline genAPI process fs₀).fs.final name = fs₀.final name)) := by
  have hrun : runPipeline genAPI process fs₀ =
      EMOTION_NAMES.foldl (step2Item process)
        (EMOTION_NAMES.foldl (step1Item genAPI) ⟨fs₀, []⟩) := rfl
  constructor
  · intro hsome
    obtain ⟨h1raw, h1writes⟩ :=
      step1_preserved genAPI EMOTION_NAMES ⟨fs₀, []⟩ name hsome
    constructor
    · rw [hrun, congrFun (step2_raw process EMOTION_NAMES
        (EMOTION_NAMES.foldl (step1Item genAPI) ⟨fs₀, []⟩)) name]
      exact h1raw
    · rw [hrun]
      intro hmem
      obtain ⟨extra, hw, hall⟩ := step2_writes process EMOTION_NAMES
        (EMOTION_NAMES.foldl (step1Item genAPI) ⟨fs₀, []⟩)
      rw [hw] at hmem
      rcases List.mem_append.mp hmem with hin | hin
      · rcases h1writes _ hin with habs | hne
        · cases habs
        · exact hne rfl
      · obtain ⟨n, hn⟩ := hall _ hin
        exact WriteEvent.noConfusion hn
  · intro hmem d hraw
    have hsome : (fs₀.raw name).isSome = true := by rw [hraw]; rfl
    obtain ⟨h1raw, _⟩ :=
      step1_preserved genAPI EMOTION_NAMES ⟨fs₀, []⟩ name hsome
    have hs1raw : (EMOTION_NAMES.foldl (step1Item genAPI)
        ⟨fs₀, []⟩).fs.raw name = some d := by rw [h1raw]; exact hraw
    obtain ⟨hfw, hfv⟩ := step2_processes process EMOTION_NAMES
      (EMOTION_NAMES.foldl (step1Item genAPI) ⟨fs₀, []⟩) name d hs1raw hmem
    refine ⟨by rw [hrun]; exact hfw, by rw [hrun]; exact hfv, ?_⟩
    intro hfin
    rw [hrun, hfv, hfin]

/-- C9 witness: the amended theorem at the concrete resumed state: the
raw image survives untouched, no raw write is logged, a final write is
logged, and the final bitmap's content is unchanged because it already
equalled `constProcess` of the raw bytes. -/
theorem C9_resume_witness :
    (runPipeline (fun _ => none) constProcess rawNeutralFS).fs.raw ("neutral") =
      rawNeutralFS.raw ("neutral") ∧
    WriteEvent.rawWrite ("neutral") ∉
      (runPipeline (fun _ => none) constProcess rawNeutralFS).writes ∧
    WriteEvent.finalWrite ("neutral") ∈
      (runPipeline (fun _ => none) constProcess rawNeutralFS).writes ∧
    (runPipeline (fun _ => none) constProcess rawNeutralFS).fs.final ("neutral") =
      rawNeutralFS.final ("neutral") := by
  have h := C9_resume_amended (fun _ => none) constProcess rawNeutralFS ("neutral")
  obtain ⟨hr, hw⟩ := h.1 (by decide)
  obtain ⟨hfw, _, hpres⟩ := h.2 (by decide) [1, 2, 3] rfl
  exact ⟨hr, hw, hfw, hpres rfl⟩

end Xiaozhi

